import Mathlib

/-!
Shallow embedding of karpenter's metrics controllers:
`pkg/controllers/metrics/node/controller.go` (node gauge projection) and the
pod metrics controller (pod "state" gauge projection).

Resource quantities are modelled in exact milli-units as `Int`
(`resource.Quantity` arithmetic is exact decimal arithmetic; `MilliValue`
returns the milli-scaled value and `Value` rounds up to whole units).
Go maps (`v1.ResourceList`, `prometheus.Labels`, the tracking maps) are
modelled as association lists with unique keys; map indexing, assignment and
deletion are the functions `mapGet?` / `setKey` / `gaugeDelete` below.
Published gauge samples are exact rationals `ℚ` (the float64 values reached
in the source are exact for the magnitudes involved).
-/

namespace Karpenter

/-- Go map read `m[k]`: the value at the first matching key, if present. -/
def mapGet? {α β : Type} [DecidableEq α] (m : List (α × β)) (k : α) : Option β :=
  match m with
  | [] => none
  | p :: rest => if p.1 = k then some p.2 else mapGet? rest k

/-- Go map assignment `m[k] = v`: replace the entry when the key is present,
append it otherwise. -/
def setKey {α β : Type} [DecidableEq α] (m : List (α × β)) (k : α) (v : β) :
    List (α × β) :=
  if (mapGet? m k).isSome then
    m.map (fun p => if p.1 = k then (k, v) else p)
  else
    m ++ [(k, v)]

/-- A `v1.ResourceList`: resource name → quantity in milli-units. -/
abbrev ResourceList := List (String × Int)

/-- A `prometheus.Labels` map: label name → label value. -/
abbrev LabelTuple := List (String × String)

/-- One gauge family: label tuple → current sample value. -/
abbrev Gauge := List (LabelTuple × ℚ)

/-- Loop body of `addResourceQuantity`: insert the quantity when the
resource name is absent from the target, add to it when present. -/
def addQuantityStep (t : ResourceList) (p : String × Int) : ResourceList :=
  match mapGet? t p.1 with
  | none => t ++ [(p.1, p.2)]
  | some v => setKey t p.1 (v + p.2)

/-- `addResourceQuantity` from `controller.go`: fold the value list into the
target list, inserting missing keys and adding to present ones. -/
def addResourceQuantity (valueResourceList targetResourceList : ResourceList) :
    ResourceList :=
  valueResourceList.foldl addQuantityStep targetResourceList

/-- A container's resource requirements (`container.Resources`). -/
structure Container where
  requests : ResourceList
  limits : ResourceList
deriving DecidableEq

/-- Pod snapshot as the node metrics controller consumes it. -/
structure Pod where
  phase : String
  ownedByDaemonSet : Bool
  containers : List Container
  overhead : Option ResourceList
deriving DecidableEq

/-- Modelled from the spec: `podutil.IsTerminal` (from `pkg/utils/pod`, not
part of the given sources) — a pod is terminal when its phase is
succeeded or failed. -/
def isTerminal (pod : Pod) : Bool :=
  pod.phase = "Succeeded" || pod.phase = "Failed"

/-- The container loop of `getPodsTotalRequestsAndLimits`: add every
container's requests and limits into the running (reqs, limits) pair. -/
def processPodContainers (acc : ResourceList × ResourceList)
    (cs : List Container) : ResourceList × ResourceList :=
  cs.foldl
    (fun a c => (addResourceQuantity c.requests a.1, addResourceQuantity c.limits a.2))
    acc

/-- Loop body of the overhead-to-limits pass: add the overhead entry only
when a non-zero limit entry for that resource name is already present. -/
def overheadLimitStep (l : ResourceList) (p : String × Int) : ResourceList :=
  match mapGet? l p.1 with
  | some v => if v ≠ 0 then setKey l p.1 (v + p.2) else l
  | none => l

/-- The overhead-to-limits loop of `getPodsTotalRequestsAndLimits`: add each
overhead entry to the limits map only when a non-zero entry for that
resource name is already present. -/
def addOverheadToLimits (overhead : ResourceList) (limits : ResourceList) :
    ResourceList :=
  overhead.foldl overheadLimitStep limits

/-- The per-pod step of `getPodsTotalRequestsAndLimits`: terminal pods are
skipped; otherwise containers are summed, then pod overhead is added to the
requests unconditionally and to the non-zero limits. -/
def processPod (acc : ResourceList × ResourceList) (pod : Pod) :
    ResourceList × ResourceList :=
  if isTerminal pod then acc
  else
    let acc := processPodContainers acc pod.containers
    match pod.overhead with
    | none => acc
    | some ov => (addResourceQuantity ov acc.1, addOverheadToLimits ov acc.2)

/-- `getPodsTotalRequestsAndLimits` from `controller.go`. -/
def getPodsTotalRequestsAndLimits (pods : List Pod) :
    ResourceList × ResourceList :=
  pods.foldl processPod ([], [])

/-- Node snapshot as the controllers consume it. -/
structure Node where
  name : String
  labels : List (String × String)
  capacity : ResourceList
  allocatable : ResourceList
  phase : String
deriving DecidableEq

/-- `getSystemOverhead` from `controller.go`: per allocatable resource name,
capacity (zero when absent) minus allocatable; empty when the node reports
no allocatable. -/
def getSystemOverhead (node : Node) : ResourceList :=
  if node.allocatable.length > 0 then
    node.allocatable.map (fun p => (p.1, (mapGet? node.capacity p.1).getD 0 - p.2))
  else
    []

def provisionerNameLabelKey : String := "karpenter.sh/provisioner-name"
def labelTopologyZone : String := "topology.kubernetes.io/zone"
def labelArchStable : String := "kubernetes.io/arch"
def labelCapacityType : String := "karpenter.sh/capacity-type"
def labelInstanceTypeStable : String := "node.kubernetes.io/instance-type"

/-- `Controller.generateLabels` of the node metrics controller: the eight
node-gauge labels; absent provisioner and capacity-type node labels become
the "N/A" sentinel, absent zone/arch/instance-type become "" (a Go map read
of a missing key). -/
def generateLabels (node : Node) (resourceTypeName : String) : LabelTuple :=
  [("resource_type", resourceTypeName),
   ("node_name", node.name),
   ("provisioner", (mapGet? node.labels provisionerNameLabelKey).getD "N/A"),
   ("zone", (mapGet? node.labels labelTopologyZone).getD ""),
   ("arch", (mapGet? node.labels labelArchStable).getD ""),
   ("capacity_type", (mapGet? node.labels labelCapacityType).getD "N/A"),
   ("instance_type", (mapGet? node.labels labelInstanceTypeStable).getD ""),
   ("phase", node.phase)]

/-- `strings.ReplaceAll(strings.ToLower(name), "-", "_")` from
`insertGaugeValues`, written rune-wise: `ToLower` lower-cases each rune and
replacing the single-character pattern `-` maps each `-` to `_`. -/
def normalizeResourceName (s : String) : String :=
  String.mk ((s.data.map Char.toLower).map (fun c => if c = '-' then '_' else c))

/-- Sample value written by `insertGaugeValues`: CPU is reported as
fractional cores from its milli-value, other resources report
`quantity.Value()`, i.e. whole units rounded up. -/
def publishValue (resourceName : String) (q : Int) : ℚ :=
  if resourceName = "cpu" then (q : ℚ) / 1000
  else ((-((-q).ediv 1000) : Int) : ℚ)

/-- `gaugeVec.GetMetricWith(labels)` followed by `gauge.Set(v)`: create or
replace the sample keyed by the label tuple. -/
def gaugeUpsert (g : Gauge) (t : LabelTuple) (v : ℚ) : Gauge :=
  setKey g t v

/-- `gaugeVec.Delete(labels)`: drop the sample keyed by the tuple, a no-op
when absent. -/
def gaugeDelete (g : Gauge) (t : LabelTuple) : Gauge :=
  g.filter (fun e => !decide (e.1 = t))

/-- Delete a list of tuples from one gauge family. -/
def gaugeDeleteAll (g : Gauge) (ts : List LabelTuple) : Gauge :=
  ts.foldl gaugeDelete g

/-- `Controller.LabelSliceMap`: node name → label tuples last published. -/
abbrev LabelSliceMap := List (String × List LabelTuple)

/-- The node metrics controller's mutable state: the tracking map and the
six registered gauge families. -/
structure NodeMetricsState where
  labelSliceMap : LabelSliceMap
  allocatableGauge : Gauge
  podRequestsGauge : Gauge
  podLimitsGauge : Gauge
  daemonRequestsGauge : Gauge
  daemonLimitsGauge : Gauge
  overheadGauge : Gauge
deriving DecidableEq

/-- `Controller.deleteGauges`: delete every tracked tuple of the node from
all six families, then reset its tracking entry to the empty slice. -/
def deleteGauges (st : NodeMetricsState) (name : String) : NodeMetricsState :=
  let slice := (mapGet? st.labelSliceMap name).getD []
  { labelSliceMap := setKey st.labelSliceMap name []
    allocatableGauge := gaugeDeleteAll st.allocatableGauge slice
    podRequestsGauge := gaugeDeleteAll st.podRequestsGauge slice
    podLimitsGauge := gaugeDeleteAll st.podLimitsGauge slice
    daemonRequestsGauge := gaugeDeleteAll st.daemonRequestsGauge slice
    daemonLimitsGauge := gaugeDeleteAll st.daemonLimitsGauge slice
    overheadGauge := gaugeDeleteAll st.overheadGauge slice }

/-- Loop body of `Controller.insertGaugeValues`: normalize the resource
name, project the label tuple, append it to the node's tracking slice and
upsert the sample. -/
def insertGaugeStep (node : Node) (acc : Gauge × LabelSliceMap)
    (p : String × Int) : Gauge × LabelSliceMap :=
  let resourceTypeName := normalizeResourceName p.1
  let labels := generateLabels node resourceTypeName
  let lsm := setKey acc.2 node.name (((mapGet? acc.2 node.name).getD []) ++ [labels])
  (gaugeUpsert acc.1 labels (publishValue p.1 p.2), lsm)

/-- `Controller.insertGaugeValues` for one family: for each resource entry,
project the label tuple, record it in the tracking map, and upsert the
sample. -/
def insertGaugeValues (resourceList : ResourceList) (node : Node) (g : Gauge)
    (lsm : LabelSliceMap) : Gauge × LabelSliceMap :=
  resourceList.foldl (insertGaugeStep node) (g, lsm)

/-- `Controller.updateGauges`: split pods by daemon-set ownership, aggregate,
compute overhead, choose allocatable (capacity when the node reports no
allocatable), and publish all six families. -/
def updateGauges (st : NodeMetricsState) (node : Node) (pods : List Pod) :
    NodeMetricsState :=
  let daemonSetPods := pods.filter (fun p => p.ownedByDaemonSet)
  let regularPods := pods.filter (fun p => !p.ownedByDaemonSet)
  let podAgg := getPodsTotalRequestsAndLimits regularPods
  let daemonAgg := getPodsTotalRequestsAndLimits daemonSetPods
  let systemOverhead := getSystemOverhead node
  let allocatable :=
    if node.allocatable.length > 0 then node.allocatable else node.capacity
  let r1 := insertGaugeValues systemOverhead node st.overheadGauge st.labelSliceMap
  let r2 := insertGaugeValues podAgg.1 node st.podRequestsGauge r1.2
  let r3 := insertGaugeValues podAgg.2 node st.podLimitsGauge r2.2
  let r4 := insertGaugeValues daemonAgg.1 node st.daemonRequestsGauge r3.2
  let r5 := insertGaugeValues daemonAgg.2 node st.daemonLimitsGauge r4.2
  let r6 := insertGaugeValues allocatable node st.allocatableGauge r5.2
  { labelSliceMap := r6.2
    allocatableGauge := r6.1
    podRequestsGauge := r2.1
    podLimitsGauge := r3.1
    daemonRequestsGauge := r4.1
    daemonLimitsGauge := r5.1
    overheadGauge := r1.1 }

/-- Result of a `KubeClient.Get` / `List` call. -/
inductive Fetch (α : Type) where
  | found : α → Fetch α
  | notFound : Fetch α
  | fetchError : Fetch α
deriving DecidableEq

/-- Outcome of one reconciliation: `ok` (empty result, nil error) or `err`
(an error is returned to the runtime for retry). -/
inductive ReconcileResult where
  | ok : ReconcileResult
  | err : ReconcileResult
deriving DecidableEq

/-- `Controller.Reconcile` of the node metrics controller. The previous
gauges are deleted first; then the node is fetched (NotFound succeeds,
other fetch errors are returned); then `updateGauges` runs, whose pod list
call may itself fail. -/
def nodeReconcile (st : NodeMetricsState) (name : String)
    (nodeFetch : Fetch Node) (podListFetch : Fetch (List Pod)) :
    NodeMetricsState × ReconcileResult :=
  let st := deleteGauges st name
  match nodeFetch with
  | .notFound => (st, .ok)
  | .fetchError => (st, .err)
  | .found node =>
    match podListFetch with
    | .found pods => (updateGauges st node pods, .ok)
    | _ => (st, .err)

/-- An entry of `pod.GetOwnerReferences()`. -/
structure OwnerReference where
  apiVersion : String
  kind : String
  name : String
deriving DecidableEq

/-- Pod snapshot as the pod metrics controller consumes it. -/
structure PodObject where
  name : String
  namespaceName : String
  ownerReferences : List OwnerReference
  nodeName : String
  phase : String
  nodeSelector : List (String × String)
  podLabels : List (String × String)
deriving DecidableEq

/-- The manually generated self link for the first owner reference
(`fmt.Sprintf("/apis/%s/namespaces/%s/%ss/%s", ...)`), empty when the pod
has no owner references. -/
def selfLink (pod : PodObject) : String :=
  match pod.ownerReferences with
  | [] => ""
  | ref :: _ =>
    "/apis/" ++ ref.apiVersion ++ "/namespaces/" ++ pod.namespaceName ++ "/" ++
      ref.kind.toLower ++ "s/" ++ ref.name

/-- Models `json.Marshal` applied to the pod's label map (a total function
on string maps; it cannot fail there). Only its presence as the
`pod_labels` label value matters to the claims. -/
def marshalPodLabels (labels : List (String × String)) : String :=
  "\x7b" ++
    String.intercalate ","
      (labels.map (fun p => "\"" ++ p.1 ++ "\":\"" ++ p.2 ++ "\"")) ++
    "\x7d"

/-- `Controller.generateLabels` of the pod metrics controller: the eleven
pod-gauge labels. When the owning node cannot be fetched, the host-derived
labels are filled with "" and the provisioner label falls back to the pod's
node-selector hint ("" when absent); otherwise they come from the node's
labels (a missing node label reads as ""). -/
def podGenerateLabels (pod : PodObject) (nodeFetch : Fetch Node) : LabelTuple :=
  let hostLabels : LabelTuple :=
    match nodeFetch with
    | .found node =>
      [("provisioner", (mapGet? node.labels provisionerNameLabelKey).getD ""),
       ("zone", (mapGet? node.labels labelTopologyZone).getD ""),
       ("arch", (mapGet? node.labels labelArchStable).getD ""),
       ("capacity_type", (mapGet? node.labels labelCapacityType).getD ""),
       ("instance_type", (mapGet? node.labels labelInstanceTypeStable).getD "")]
    | _ =>
      [("provisioner", (mapGet? pod.nodeSelector provisionerNameLabelKey).getD ""),
       ("zone", ""),
       ("arch", ""),
       ("capacity_type", ""),
       ("instance_type", "")]
  [("name", pod.name),
   ("namespace", pod.namespaceName),
   ("owner", selfLink pod),
   ("node", pod.nodeName)] ++ hostLabels ++
  [("phase", pod.phase),
   ("pod_labels", marshalPodLabels pod.podLabels)]

/-- The pod metrics controller's mutable state: `Controller.LabelsMap`
(keyed by namespace and name) and the single "state" gauge family. -/
structure PodMetricsState where
  labelsMap : List ((String × String) × LabelTuple)
  podGauge : Gauge
deriving DecidableEq

/-- `Controller.Reconcile` of the pod metrics controller. NotFound deletes
the tracked gauge (when any) and succeeds; a fetch error is returned
untouched; a found pod has its previous gauge deleted, its labels
regenerated (total here: marshalling a string map cannot fail and the
generated tuple always matches the registered schema), the state gauge set
to 1, and the tuple recorded. -/
def podReconcile (st : PodMetricsState) (key : String × String)
    (podFetch : Fetch PodObject) (nodeFetch : Fetch Node) :
    PodMetricsState × ReconcileResult :=
  match podFetch with
  | .notFound =>
    match mapGet? st.labelsMap key with
    | some labels => ({ st with podGauge := gaugeDelete st.podGauge labels }, .ok)
    | none => (st, .ok)
  | .fetchError => (st, .err)
  | .found pod =>
    let st1 :=
      match mapGet? st.labelsMap key with
      | some labels => { st with podGauge := gaugeDelete st.podGauge labels }
      | none => st
    let newlabels := podGenerateLabels pod nodeFetch
    ({ labelsMap := setKey st1.labelsMap key newlabels
       podGauge := gaugeUpsert st1.podGauge newlabels 1 }, .ok)

/-! ### Association-list lemmas -/

/-- The keys of an association list. -/
def keysOf {α β : Type} (m : List (α × β)) : List α := m.map Prod.fst

@[simp]
theorem mapGet?_nil {α β : Type} [DecidableEq α] (k : α) :
    mapGet? ([] : List (α × β)) k = none := rfl

@[simp]
theorem mapGet?_cons {α β : Type} [DecidableEq α] (p : α × β) (m : List (α × β))
    (k : α) :
    mapGet? (p :: m) k = if p.1 = k then some p.2 else mapGet? m k := rfl

@[simp]
theorem keysOf_nil {α β : Type} : keysOf ([] : List (α × β)) = [] := rfl

@[simp]
theorem keysOf_cons {α β : Type} (p : α × β) (m : List (α × β)) :
    keysOf (p :: m) = p.1 :: keysOf m := rfl

theorem keysOf_append {α β : Type} (a b : List (α × β)) :
    keysOf (a ++ b) = keysOf a ++ keysOf b := List.map_append _ a b

theorem mapGet?_append {α β : Type} [DecidableEq α] (a b : List (α × β)) (k : α) :
    mapGet? (a ++ b) k = (mapGet? a k).or (mapGet? b k) := by
  induction a with
  | nil => simp
  | cons p rest ih => by_cases h : p.1 = k <;> simp [h, ih]

theorem mapGet?_eq_some_mem {α β : Type} [DecidableEq α] {m : List (α × β)}
    {k : α} {v : β} (h : mapGet? m k = some v) : (k, v) ∈ m := by
  induction m with
  | nil => simp at h
  | cons p rest ih =>
    obtain ⟨a, b⟩ := p
    by_cases hp : a = k
    · subst hp
      simp only [mapGet?_cons, if_pos rfl] at h
      injection h with h'
      subst h'
      exact List.mem_cons_self _ _
    · simp only [mapGet?_cons, if_neg hp] at h
      exact List.mem_cons_of_mem _ (ih h)

theorem mapGet?_isSome_iff {α β : Type} [DecidableEq α] (m : List (α × β))
    (k : α) : (mapGet? m k).isSome ↔ k ∈ keysOf m := by
  induction m with
  | nil => simp
  | cons p rest ih =>
    by_cases h : p.1 = k
    · simp [h]
    · simp only [mapGet?_cons, if_neg h, keysOf_cons, List.mem_cons, ih]
      exact (or_iff_right (fun hh => h hh.symm)).symm

theorem mapGet?_eq_none_iff {α β : Type} [DecidableEq α] (m : List (α × β))
    (k : α) : mapGet? m k = none ↔ k ∉ keysOf m := by
  rw [← mapGet?_isSome_iff, Option.not_isSome_iff_eq_none]

theorem assignMap_of_not_mem {α β : Type} [DecidableEq α] {m : List (α × β)}
    {k : α} (v : β) (h : k ∉ keysOf m) :
    m.map (fun p => if p.1 = k then (k, v) else p) = m := by
  induction m with
  | nil => rfl
  | cons p rest ih =>
    simp only [keysOf_cons, List.mem_cons, not_or] at h
    simp [if_neg (fun hh : p.1 = k => h.1 hh.symm), ih h.2]

theorem mapGet?_assignMap_ne {α β : Type} [DecidableEq α] (m : List (α × β))
    {k n : α} (v : β) (h : n ≠ k) :
    mapGet? (m.map (fun p => if p.1 = k then (k, v) else p)) n = mapGet? m n := by
  induction m with
  | nil => rfl
  | cons p rest ih =>
    by_cases hp : p.1 = k
    · have hkn : ¬k = n := fun hh => h hh.symm
      have hpn : ¬p.1 = n := fun hh => h ((hp.symm.trans hh).symm)
      simp only [List.map_cons, if_pos hp, mapGet?_cons, if_neg hkn, if_neg hpn]
      exact ih
    · simp only [List.map_cons, if_neg hp, mapGet?_cons, ih]

theorem mapGet?_assignMap_self {α β : Type} [DecidableEq α] {m : List (α × β)}
    {k : α} (v : β) (h : (mapGet? m k).isSome) :
    mapGet? (m.map (fun p => if p.1 = k then (k, v) else p)) k = some v := by
  induction m with
  | nil => simp at h
  | cons p rest ih =>
    by_cases hp : p.1 = k
    · simp [hp]
    · simp only [mapGet?_cons, if_neg hp] at h
      simp only [List.map_cons, if_neg hp, mapGet?_cons, if_neg hp]
      exact ih h

/-- Reading back a map after assignment: the assigned key holds the new
value, every other key is untouched. -/
theorem mapGet?_setKey {α β : Type} [DecidableEq α] (m : List (α × β))
    (k : α) (v : β) (n : α) :
    mapGet? (setKey m k v) n = if n = k then some v else mapGet? m n := by
  unfold setKey
  by_cases hs : (mapGet? m k).isSome
  · rw [if_pos hs]
    by_cases hn : n = k
    · subst hn
      rw [if_pos rfl, mapGet?_assignMap_self v hs]
    · rw [if_neg hn, mapGet?_assignMap_ne m v hn]
  · rw [if_neg hs, mapGet?_append]
    by_cases hn : n = k
    · subst hn
      rw [Option.not_isSome_iff_eq_none] at hs
      simp [hs]
    · have hkn : ¬k = n := fun hh => hn hh.symm
      simp [if_neg hkn, if_neg hn]

theorem keysOf_assignMap {α β : Type} [DecidableEq α] (m : List (α × β))
    (k : α) (v : β) :
    keysOf (m.map (fun p => if p.1 = k then (k, v) else p)) = keysOf m := by
  induction m with
  | nil => rfl
  | cons p rest ih =>
    by_cases hp : p.1 = k
    · simp [hp, ih]
    · simp [if_neg hp, ih]

theorem keysOf_setKey {α β : Type} [DecidableEq α] (m : List (α × β))
    (k : α) (v : β) :
    keysOf (setKey m k v) =
      if (mapGet? m k).isSome then keysOf m else keysOf m ++ [k] := by
  unfold setKey
  by_cases hs : (mapGet? m k).isSome
  · rw [if_pos hs, if_pos hs, keysOf_assignMap]
  · rw [if_neg hs, if_neg hs, keysOf_append]
    rfl

theorem nodup_keysOf_setKey {α β : Type} [DecidableEq α] {m : List (α × β)}
    (k : α) (v : β) (h : (keysOf m).Nodup) : (keysOf (setKey m k v)).Nodup := by
  rw [keysOf_setKey]
  by_cases hs : (mapGet? m k).isSome
  · rwa [if_pos hs]
  · rw [if_neg hs]
    rw [Option.not_isSome_iff_eq_none, mapGet?_eq_none_iff] at hs
    simp [List.nodup_append, h, hs]

/-! ### Quantity-sum lemmas -/

/-- The total quantity an association list carries for one resource name
(an absent name counts as zero; with unique keys this is the map value). -/
def sumVal (m : ResourceList) (n : String) : Int :=
  ((m.filter (fun p => decide (p.1 = n))).map Prod.snd).sum

@[simp]
theorem sumVal_nil (n : String) : sumVal [] n = 0 := rfl

theorem sumVal_cons (p : String × Int) (m : ResourceList) (n : String) :
    sumVal (p :: m) n = (if p.1 = n then p.2 else 0) + sumVal m n := by
  by_cases h : p.1 = n <;> simp [sumVal, List.filter_cons, h]

theorem sumVal_append (a b : ResourceList) (n : String) :
    sumVal (a ++ b) n = sumVal a n + sumVal b n := by
  simp [sumVal, List.filter_append]

theorem sumVal_eq_zero_of_not_mem {m : ResourceList} {n : String}
    (h : n ∉ keysOf m) : sumVal m n = 0 := by
  induction m with
  | nil => rfl
  | cons p rest ih =>
    simp only [keysOf_cons, List.mem_cons, not_or] at h
    rw [sumVal_cons, if_neg (fun hh => h.1 hh.symm), ih h.2, add_zero]

theorem sumVal_of_mapGet?_eq_some {m : ResourceList} {k : String} {v : Int}
    (hnd : (keysOf m).Nodup) (h : mapGet? m k = some v) : sumVal m k = v := by
  induction m with
  | nil => simp at h
  | cons p rest ih =>
    simp only [keysOf_cons, List.nodup_cons] at hnd
    rw [sumVal_cons]
    by_cases hp : p.1 = k
    · simp only [mapGet?_cons, if_pos hp] at h
      injection h with h'
      have hk : k ∉ keysOf rest := hp ▸ hnd.1
      rw [if_pos hp, h', sumVal_eq_zero_of_not_mem hk, add_zero]
    · simp only [mapGet?_cons, if_neg hp] at h
      rw [if_neg hp, ih hnd.2 h, zero_add]

theorem sumVal_assignMap {m : ResourceList} {k : String} {v : Int}
    (hnd : (keysOf m).Nodup) (h : mapGet? m k = some v) (w : Int) (n : String) :
    sumVal (m.map (fun p => if p.1 = k then (k, w) else p)) n =
      if n = k then w else sumVal m n := by
  induction m with
  | nil => simp at h
  | cons p rest ih =>
    simp only [keysOf_cons, List.nodup_cons] at hnd
    by_cases hp : p.1 = k
    · have hkrest : k ∉ keysOf rest := hp ▸ hnd.1
      rw [List.map_cons, if_pos hp, assignMap_of_not_mem w hkrest,
        sumVal_cons, sumVal_cons]
      by_cases hn : n = k
      · subst hn
        rw [if_pos rfl, if_pos rfl, sumVal_eq_zero_of_not_mem hkrest, add_zero]
      · have hkn : ¬k = n := fun hh => hn hh.symm
        have hpn : ¬p.1 = n := fun hh => hn ((hp.symm.trans hh).symm)
        rw [if_neg hkn, if_neg hn, if_neg hpn]
    · simp only [mapGet?_cons, if_neg hp] at h
      rw [List.map_cons, if_neg hp, sumVal_cons, sumVal_cons, ih hnd.2 h]
      by_cases hn : n = k
      · subst hn
        have hpn : ¬p.1 = n := hp
        simp only [if_pos rfl, if_neg hpn, zero_add]
      · simp only [if_neg hn]

theorem sumVal_setKey {m : ResourceList} {k : String} {v : Int}
    (hnd : (keysOf m).Nodup) (h : mapGet? m k = some v) (w : Int) (n : String) :
    sumVal (setKey m k w) n = if n = k then w else sumVal m n := by
  unfold setKey
  rw [if_pos (by rw [h]; rfl : (mapGet? m k).isSome)]
  exact sumVal_assignMap hnd h w n

theorem mem_setKey {α β : Type} [DecidableEq α] {m : List (α × β)} {k : α}
    {v : β} {e : α × β} (he : e ∈ setKey m k v) : e = (k, v) ∨ e ∈ m := by
  unfold setKey at he
  by_cases hs : (mapGet? m k).isSome
  · rw [if_pos hs] at he
    obtain ⟨x, hx, hfx⟩ := List.mem_map.mp he
    by_cases hp : x.1 = k
    · left
      rw [← hfx, if_pos hp]
    · right
      rw [← hfx, if_neg hp]
      exact hx
  · rw [if_neg hs] at he
    rcases List.mem_append.mp he with h | h
    · right
      exact h
    · left
      simpa using h

/-! ### `addResourceQuantity` lemmas -/

@[simp]
theorem addResourceQuantity_nil (t : ResourceList) :
    addResourceQuantity [] t = t := rfl

theorem addResourceQuantity_cons (p : String × Int) (v t : ResourceList) :
    addResourceQuantity (p :: v) t =
      addResourceQuantity v (addQuantityStep t p) := rfl

theorem addQuantityStep_nodup {t : ResourceList} (p : String × Int)
    (h : (keysOf t).Nodup) : (keysOf (addQuantityStep t p)).Nodup := by
  unfold addQuantityStep
  cases hv : mapGet? t p.1 with
  | none =>
    rw [mapGet?_eq_none_iff] at hv
    simp [keysOf_append, List.nodup_append, h, hv]
  | some v => exact nodup_keysOf_setKey _ _ h

theorem addQuantityStep_sumVal {t : ResourceList} (p : String × Int)
    (h : (keysOf t).Nodup) (n : String) :
    sumVal (addQuantityStep t p) n =
      sumVal t n + (if p.1 = n then p.2 else 0) := by
  unfold addQuantityStep
  cases hv : mapGet? t p.1 with
  | none =>
    rw [sumVal_append, sumVal_cons, sumVal_nil, add_zero]
  | some v =>
    rw [sumVal_setKey h hv]
    by_cases hn : n = p.1
    · subst hn
      rw [if_pos rfl, if_pos rfl, sumVal_of_mapGet?_eq_some h hv]
    · have hpn : ¬p.1 = n := fun hh => hn hh.symm
      rw [if_neg hn, if_neg hpn, add_zero]

theorem addResourceQuantity_nodup {t : ResourceList} (v : ResourceList)
    (h : (keysOf t).Nodup) : (keysOf (addResourceQuantity v t)).Nodup := by
  induction v generalizing t with
  | nil => exact h
  | cons p rest ih =>
    rw [addResourceQuantity_cons]
    exact ih (addQuantityStep_nodup p h)

theorem addResourceQuantity_sumVal {t : ResourceList} (v : ResourceList)
    (h : (keysOf t).Nodup) (n : String) :
    sumVal (addResourceQuantity v t) n = sumVal t n + sumVal v n := by
  induction v generalizing t with
  | nil => rw [addResourceQuantity_nil, sumVal_nil, add_zero]
  | cons p rest ih =>
    rw [addResourceQuantity_cons, ih (addQuantityStep_nodup p h),
      addQuantityStep_sumVal p h, sumVal_cons]
    ring

theorem addQuantityStep_nonneg {t : ResourceList} {p : String × Int}
    (ht : ∀ q ∈ t, 0 ≤ q.2) (hp : 0 ≤ p.2) :
    ∀ q ∈ addQuantityStep t p, 0 ≤ q.2 := by
  intro q hq
  unfold addQuantityStep at hq
  cases hv : mapGet? t p.1 with
  | none =>
    rw [hv] at hq
    rcases List.mem_append.mp hq with h | h
    · exact ht q h
    · simp only [List.mem_singleton] at h
      subst h
      exact hp
  | some v =>
    rw [hv] at hq
    rcases mem_setKey hq with h | h
    · subst h
      have hv0 : 0 ≤ v := ht _ (mapGet?_eq_some_mem hv)
      exact add_nonneg hv0 hp
    · exact ht q h

theorem addResourceQuantity_nonneg {t v : ResourceList}
    (ht : ∀ q ∈ t, 0 ≤ q.2) (hv : ∀ q ∈ v, 0 ≤ q.2) :
    ∀ q ∈ addResourceQuantity v t, 0 ≤ q.2 := by
  induction v generalizing t with
  | nil => exact ht
  | cons p rest ih =>
    rw [addResourceQuantity_cons]
    exact ih (addQuantityStep_nonneg ht (hv p (List.mem_cons_self _ _)))
      (fun q hq => hv q (List.mem_cons_of_mem _ hq))

/-! ### Overhead-to-limits lemmas -/

@[simp]
theorem addOverheadToLimits_nil (l : ResourceList) :
    addOverheadToLimits [] l = l := rfl

theorem addOverheadToLimits_cons (p : String × Int) (ov l : ResourceList) :
    addOverheadToLimits (p :: ov) l =
      addOverheadToLimits ov (overheadLimitStep l p) := rfl

theorem overheadLimitStep_keysOf (l : ResourceList) (p : String × Int) :
    keysOf (overheadLimitStep l p) = keysOf l := by
  unfold overheadLimitStep
  cases hv : mapGet? l p.1 with
  | none => rfl
  | some v =>
    dsimp only
    by_cases hz : v ≠ 0
    · rw [if_pos hz, keysOf_setKey, if_pos (by rw [hv]; rfl)]
    · rw [if_neg hz]

theorem overheadLimitStep_nodup {l : ResourceList} (p : String × Int)
    (h : (keysOf l).Nodup) : (keysOf (overheadLimitStep l p)).Nodup := by
  rw [overheadLimitStep_keysOf]
  exact h

theorem overheadLimitStep_nonneg {l : ResourceList} {p : String × Int}
    (hl : ∀ q ∈ l, 0 ≤ q.2) (hp : 0 ≤ p.2) :
    ∀ q ∈ overheadLimitStep l p, 0 ≤ q.2 := by
  intro q hq
  unfold overheadLimitStep at hq
  cases hv : mapGet? l p.1 with
  | none =>
    rw [hv] at hq
    exact hl q hq
  | some v =>
    rw [hv] at hq
    dsimp only at hq
    by_cases hz : v ≠ 0
    · rw [if_pos hz] at hq
      rcases mem_setKey hq with h | h
      · subst h
        exact add_nonneg (hl _ (mapGet?_eq_some_mem hv)) hp
      · exact hl q h
    · rw [if_neg hz] at hq
      exact hl q hq

theorem overheadLimitStep_mapGet? (l : ResourceList) (p : String × Int)
    (n : String) :
    mapGet? (overheadLimitStep l p) n =
      (mapGet? l n).map (fun v => if n = p.1 ∧ v ≠ 0 then v + p.2 else v) := by
  unfold overheadLimitStep
  cases hv : mapGet? l p.1 with
  | none =>
    by_cases hn : n = p.1
    · subst hn
      rw [hv]
      rfl
    · cases hmv : mapGet? l n <;> simp [hmv, hn]
  | some v =>
    dsimp only
    by_cases hz : v ≠ 0
    · rw [if_pos hz, mapGet?_setKey]
      by_cases hn : n = p.1
      · subst hn
        rw [if_pos rfl, hv]
        simp [hz]
      · rw [if_neg hn]
        cases hmv : mapGet? l n <;> simp [hmv, hn]
    · rw [if_neg hz]
      push_neg at hz
      subst hz
      by_cases hn : n = p.1
      · subst hn
        rw [hv]
        simp
      · cases hmv : mapGet? l n <;> simp [hmv, hn]

theorem addOverheadToLimits_keysOf (ov l : ResourceList) :
    keysOf (addOverheadToLimits ov l) = keysOf l := by
  induction ov generalizing l with
  | nil => rfl
  | cons p rest ih =>
    rw [addOverheadToLimits_cons, ih, overheadLimitStep_keysOf]

/-- The overhead-to-limits pass, characterized per resource name: an absent
limit stays absent, a zero limit stays zero, and a non-zero (hence, under
the non-negativity assumptions, strictly positive) limit gains the whole
overhead quantity for that name. -/
theorem addOverheadToLimits_mapGet? {l ov : ResourceList}
    (hnd : (keysOf l).Nodup) (hl : ∀ q ∈ l, 0 ≤ q.2)
    (hov : ∀ q ∈ ov, 0 ≤ q.2) (n : String) :
    mapGet? (addOverheadToLimits ov l) n =
      (mapGet? l n).map (fun v => if v = 0 then 0 else v + sumVal ov n) := by
  induction ov generalizing l with
  | nil =>
    cases hmv : mapGet? l n with
    | none => simp [hmv]
    | some v =>
      by_cases hz : v = 0 <;> simp [hmv, hz]
  | cons p rest ih =>
    rw [addOverheadToLimits_cons,
      ih (overheadLimitStep_nodup p hnd)
        (overheadLimitStep_nonneg hl (hov p (List.mem_cons_self _ _)))
        (fun q hq => hov q (List.mem_cons_of_mem _ hq)),
      overheadLimitStep_mapGet?]
    cases hmv : mapGet? l n with
    | none => rfl
    | some v =>
      have hv0 : 0 ≤ v := hl _ (mapGet?_eq_some_mem hmv)
      have hp0 : 0 ≤ p.2 := hov p (List.mem_cons_self _ _)
      by_cases hz : v = 0
      · subst hz
        simp [sumVal_cons]
      · by_cases hn : n = p.1
        · subst hn
          have hvp : ¬v + p.2 = 0 := by omega
          simp [hz, hvp, sumVal_cons, Function.comp]
          ring
        · simp [hz, hn, sumVal_cons, if_neg (fun hh : p.1 = n => hn hh.symm),
            Function.comp]

/-! ### Aggregation fold lemmas -/

@[simp]
theorem processPodContainers_nil (acc : ResourceList × ResourceList) :
    processPodContainers acc [] = acc := rfl

theorem processPodContainers_cons (acc : ResourceList × ResourceList)
    (c : Container) (cs : List Container) :
    processPodContainers acc (c :: cs) =
      processPodContainers
        (addResourceQuantity c.requests acc.1, addResourceQuantity c.limits acc.2)
        cs := rfl

theorem processPodContainers_fst_nodup (cs : List Container)
    {acc : ResourceList × ResourceList} (h : (keysOf acc.1).Nodup) :
    (keysOf (processPodContainers acc cs).1).Nodup := by
  induction cs generalizing acc with
  | nil => exact h
  | cons c rest ih =>
    rw [processPodContainers_cons]
    exact ih (addResourceQuantity_nodup _ h)

theorem processPodContainers_snd_nodup (cs : List Container)
    {acc : ResourceList × ResourceList} (h : (keysOf acc.2).Nodup) :
    (keysOf (processPodContainers acc cs).2).Nodup := by
  induction cs generalizing acc with
  | nil => exact h
  | cons c rest ih =>
    rw [processPodContainers_cons]
    exact ih (addResourceQuantity_nodup _ h)

theorem processPodContainers_fst_sumVal (cs : List Container)
    {acc : ResourceList × ResourceList} (h : (keysOf acc.1).Nodup) (n : String) :
    sumVal (processPodContainers acc cs).1 n =
      sumVal acc.1 n + (cs.map (fun c => sumVal c.requests n)).sum := by
  induction cs generalizing acc with
  | nil => simp
  | cons c rest ih =>
    rw [processPodContainers_cons, ih (addResourceQuantity_nodup _ h)]
    dsimp only
    rw [addResourceQuantity_sumVal _ h, List.map_cons, List.sum_cons]
    ring

theorem processPodContainers_snd_sumVal (cs : List Container)
    {acc : ResourceList × ResourceList} (h : (keysOf acc.2).Nodup) (n : String) :
    sumVal (processPodContainers acc cs).2 n =
      sumVal acc.2 n + (cs.map (fun c => sumVal c.limits n)).sum := by
  induction cs generalizing acc with
  | nil => simp
  | cons c rest ih =>
    rw [processPodContainers_cons, ih (addResourceQuantity_nodup _ h)]
    dsimp only
    rw [addResourceQuantity_sumVal _ h, List.map_cons, List.sum_cons]
    ring

theorem processPodContainers_snd_nonneg (cs : List Container)
    {acc : ResourceList × ResourceList} (ha : ∀ q ∈ acc.2, 0 ≤ q.2)
    (hc : ∀ c ∈ cs, ∀ q ∈ c.limits, 0 ≤ q.2) :
    ∀ q ∈ (processPodContainers acc cs).2, 0 ≤ q.2 := by
  induction cs generalizing acc with
  | nil => exact ha
  | cons c rest ih =>
    rw [processPodContainers_cons]
    exact ih
      (addResourceQuantity_nonneg ha (hc c (List.mem_cons_self _ _)))
      (fun c' hc' => hc c' (List.mem_cons_of_mem _ hc'))

/-- A single pod's total contribution to the requests aggregate at one
resource name: zero for terminal pods, otherwise its containers' requests
plus its declared overhead. -/
def podRequestsContribution (pod : Pod) (n : String) : Int :=
  if isTerminal pod then 0
  else
    (pod.containers.map (fun c => sumVal c.requests n)).sum +
      (match pod.overhead with
       | some ov => sumVal ov n
       | none => 0)

theorem processPod_fst_nodup {acc : ResourceList × ResourceList} (pod : Pod)
    (h : (keysOf acc.1).Nodup) : (keysOf (processPod acc pod).1).Nodup := by
  by_cases ht : isTerminal pod = true
  · simp only [processPod, if_pos ht]
    exact h
  · simp only [processPod, if_neg ht]
    cases ho : pod.overhead with
    | none =>
      dsimp only
      exact processPodContainers_fst_nodup _ h
    | some ov =>
      dsimp only
      exact addResourceQuantity_nodup _ (processPodContainers_fst_nodup _ h)

theorem processPod_fst_sumVal {acc : ResourceList × ResourceList} (pod : Pod)
    (h : (keysOf acc.1).Nodup) (n : String) :
    sumVal (processPod acc pod).1 n =
      sumVal acc.1 n + podRequestsContribution pod n := by
  by_cases ht : isTerminal pod = true
  · simp only [processPod, podRequestsContribution, if_pos ht, add_zero]
  · simp only [processPod, podRequestsContribution, if_neg ht]
    cases ho : pod.overhead with
    | none =>
      dsimp only
      rw [processPodContainers_fst_sumVal _ h, add_zero]
    | some ov =>
      dsimp only
      rw [addResourceQuantity_sumVal _ (processPodContainers_fst_nodup _ h),
        processPodContainers_fst_sumVal _ h]
      ring

theorem foldl_processPod_fst_nodup (pods : List Pod)
    {acc : ResourceList × ResourceList} (h : (keysOf acc.1).Nodup) :
    (keysOf ((pods.foldl processPod acc).1)).Nodup := by
  induction pods generalizing acc with
  | nil => exact h
  | cons pod rest ih =>
    rw [List.foldl_cons]
    exact ih (processPod_fst_nodup pod h)

theorem foldl_processPod_fst_sumVal (pods : List Pod)
    {acc : ResourceList × ResourceList} (h : (keysOf acc.1).Nodup) (n : String) :
    sumVal ((pods.foldl processPod acc).1) n =
      sumVal acc.1 n + (pods.map (fun p => podRequestsContribution p n)).sum := by
  induction pods generalizing acc with
  | nil => simp
  | cons pod rest ih =>
    rw [List.foldl_cons, ih (processPod_fst_nodup pod h),
      processPod_fst_sumVal pod h, List.map_cons, List.sum_cons]
    ring

/-- The requests aggregate of `getPodsTotalRequestsAndLimits` is, at every
resource name, the sum of the individual pods' contributions. -/
theorem getPodsTotalRequestsAndLimits_fst_sumVal (pods : List Pod) (n : String) :
    sumVal (getPodsTotalRequestsAndLimits pods).1 n =
      (pods.map (fun p => podRequestsContribution p n)).sum := by
  unfold getPodsTotalRequestsAndLimits
  rw [foldl_processPod_fst_sumVal pods (by simp) n]
  simp

/-! ### Gauge registry lemmas -/

theorem mem_gaugeDelete {g : Gauge} {t : LabelTuple} {e : LabelTuple × ℚ} :
    e ∈ gaugeDelete g t ↔ e ∈ g ∧ e.1 ≠ t := by
  simp [gaugeDelete, List.mem_filter]

theorem mem_gaugeDeleteAll {g : Gauge} {ts : List LabelTuple}
    {e : LabelTuple × ℚ} :
    e ∈ gaugeDeleteAll g ts ↔ e ∈ g ∧ e.1 ∉ ts := by
  induction ts generalizing g with
  | nil => simp [gaugeDeleteAll]
  | cons t rest ih =>
    have hstep : gaugeDeleteAll g (t :: rest) = gaugeDeleteAll (gaugeDelete g t) rest := rfl
    rw [hstep, ih]
    rw [mem_gaugeDelete]
    simp only [List.mem_cons]
    tauto

theorem generateLabels_inj {node : Node} {a b : String}
    (h : generateLabels node a = generateLabels node b) : a = b := by
  simp only [generateLabels, List.cons.injEq, Prod.mk.injEq] at h
  exact h.1.2

@[simp]
theorem insertGaugeValues_nil (node : Node) (g : Gauge) (lsm : LabelSliceMap) :
    insertGaugeValues [] node g lsm = (g, lsm) := rfl

theorem insertGaugeValues_cons (p : String × Int) (rl : ResourceList)
    (node : Node) (g : Gauge) (lsm : LabelSliceMap) :
    insertGaugeValues (p :: rl) node g lsm =
      insertGaugeValues rl node (insertGaugeStep node (g, lsm) p).1
        (insertGaugeStep node (g, lsm) p).2 := rfl

theorem insertGaugeValues_gauge_preserve {rl : ResourceList} {node : Node}
    {g : Gauge} {lsm : LabelSliceMap} {t : LabelTuple}
    (h : ∀ p ∈ rl, generateLabels node (normalizeResourceName p.1) ≠ t) :
    mapGet? (insertGaugeValues rl node g lsm).1 t = mapGet? g t := by
  induction rl generalizing g lsm with
  | nil => rfl
  | cons p rest ih =>
    rw [insertGaugeValues_cons,
      ih (fun r hr => h r (List.mem_cons_of_mem _ hr))]
    simp only [insertGaugeStep, gaugeUpsert]
    rw [mapGet?_setKey,
      if_neg (fun hh => h p (List.mem_cons_self _ _) hh.symm)]

/-- After `insertGaugeValues` publishes a resource list whose normalized
names are distinct, the sample keyed by each entry's projected label tuple
holds that entry's published value, whatever the starting registry held. -/
theorem insertGaugeValues_gauge_mapGet? {rl : ResourceList} {node : Node}
    (hnd : (rl.map (fun p => normalizeResourceName p.1)).Nodup) :
    ∀ g lsm, ∀ p ∈ rl,
      mapGet? (insertGaugeValues rl node g lsm).1
        (generateLabels node (normalizeResourceName p.1)) =
      some (publishValue p.1 p.2) := by
  induction rl with
  | nil =>
    intro g lsm p hp
    simp at hp
  | cons q rest ih =>
    intro g lsm p hp
    simp only [List.map_cons, List.nodup_cons] at hnd
    rw [insertGaugeValues_cons]
    rcases List.mem_cons.mp hp with rfl | hmem
    · rw [insertGaugeValues_gauge_preserve
        (fun r hr hh =>
          hnd.1 (by
            rw [← generateLabels_inj hh]
            exact List.mem_map_of_mem _ hr))]
      simp only [insertGaugeStep, gaugeUpsert]
      rw [mapGet?_setKey, if_pos rfl]
    · exact ih hnd.2 _ _ p hmem

theorem mapGet?_mapValues {α β γ : Type} [DecidableEq α] (m : List (α × β))
    (f : α → β → γ) (n : α) :
    mapGet? (m.map (fun p => (p.1, f p.1 p.2))) n = (mapGet? m n).map (f n) := by
  induction m with
  | nil => rfl
  | cons p rest ih =>
    by_cases h : p.1 = n
    · subst h
      simp [mapGet?_cons]
    · simp [mapGet?_cons, h, ih]

theorem keysOf_mapValues {α β γ : Type} (m : List (α × β)) (f : α → β → γ) :
    keysOf (m.map (fun p => (p.1, f p.1 p.2))) = keysOf m := by
  induction m with
  | nil => rfl
  | cons p rest ih => simp [keysOf, ih]

/-! ### Concrete states used by the claims -/

/-- Fresh state of the node metrics controller, as built by `NewController`
(empty tracking map) on a process whose registry holds no series yet. -/
def emptyNodeState : NodeMetricsState :=
  { labelSliceMap := [], allocatableGauge := [], podRequestsGauge := [],
    podLimitsGauge := [], daemonRequestsGauge := [], daemonLimitsGauge := [],
    overheadGauge := [] }

/-- A label tuple as previously published for node n1. -/
def c1Tuple : LabelTuple :=
  [("resource_type", "cpu"), ("node_name", "n1"), ("provisioner", "default"),
   ("zone", "us-east-1a"), ("arch", "amd64"), ("capacity_type", "spot"),
   ("instance_type", "m5.large"), ("phase", "Running")]

/-- A node-controller state that tracks one published series for node n1
in the overhead and allocatable families. -/
def c1State : NodeMetricsState :=
  { labelSliceMap := [("n1", [c1Tuple])]
    allocatableGauge := [(c1Tuple, 4)]
    podRequestsGauge := []
    podLimitsGauge := []
    daemonRequestsGauge := []
    daemonLimitsGauge := []
    overheadGauge := [(c1Tuple, 1)] }

/-! ### C1 -/

/-- C1 counterexample: a transient fetch error while reconciling node n1
returns an error, as claimed, but the previously published series are NOT
left untouched: the node controller has already deleted them (its
overhead and allocatable samples are gone and the tracked tuple set is
cleared), because `Reconcile` calls `deleteGauges` before fetching. -/
theorem c1_counterexample :
    (nodeReconcile c1State "n1" .fetchError .fetchError).2 = .err ∧
    (nodeReconcile c1State "n1" .fetchError .fetchError).1.overheadGauge = [] ∧
    c1State.overheadGauge ≠ [] ∧
    (nodeReconcile c1State "n1" .fetchError .fetchError).1.allocatableGauge = [] ∧
    c1State.allocatableGauge ≠ [] ∧
    mapGet? (nodeReconcile c1State "n1" .fetchError .fetchError).1.labelSliceMap
      "n1" = some [] := by
  decide

/-- C1 amended: a reconciliation that fails during recomputation returns an
error for retry; the pod reconciler's fetch failure indeed performs no
metrics mutation (its state is returned untouched), but the node
reconciler deletes the node's previously tracked series and clears its
tracking entry before the fetch, so a node fetch failure leaves the
delete already applied rather than the previous series untouched. -/
theorem c1_amended_failure_behaviour :
    (∀ (pst : PodMetricsState) (key : String × String) (nf : Fetch Node),
      podReconcile pst key .fetchError nf = (pst, .err)) ∧
    (∀ (st : NodeMetricsState) (name : String) (fp : Fetch (List Pod)),
      (nodeReconcile st name .fetchError fp).2 = .err ∧
      (nodeReconcile st name .fetchError fp).1 = deleteGauges st name ∧
      mapGet? (nodeReconcile st name .fetchError fp).1.labelSliceMap name =
        some []) := by
  refine ⟨fun pst key nf => rfl, fun st name fp => ⟨rfl, rfl, ?_⟩⟩
  have h : (nodeReconcile st name .fetchError fp).1.labelSliceMap =
      setKey st.labelSliceMap name [] := rfl
  rw [h, mapGet?_setKey, if_pos rfl]

/-! ### C2 -/

/-- A node whose reported capacity is below its allocatable. -/
def c2Node : Node :=
  { name := "n2", labels := [], capacity := [("cpu", 1000)],
    allocatable := [("cpu", 2000)], phase := "Ready" }

/-- C2 counterexample: for a node with capacity cpu=1 and allocatable
cpu=2, `getSystemOverhead` yields cpu = −1000 milli and reconciliation
publishes the negative value −1 in the system-overhead family: nothing is
clamped to zero. -/
theorem c2_counterexample :
    getSystemOverhead c2Node = [("cpu", -1000)] ∧
    (nodeReconcile emptyNodeState "n2" (.found c2Node) (.found [])).1.overheadGauge =
      [(generateLabels c2Node "cpu", -1)] ∧
    (-1 : ℚ) < 0 := by
  refine ⟨by decide, ?_, by norm_num⟩
  have hn : normalizeResourceName "cpu" = "cpu" := by decide
  simp [nodeReconcile, updateGauges, deleteGauges, insertGaugeValues,
    insertGaugeStep, getPodsTotalRequestsAndLimits, getSystemOverhead,
    mapGet?, setKey, gaugeUpsert, gaugeDeleteAll, publishValue, hn,
    c2Node, emptyNodeState]

/-- C2 amended: system overhead is computed per resource name as
capacity[name] − allocatable[name], restricted to exactly the names present
in allocatable (hence empty when the node reports no allocatable); the
difference is taken as-is, so when capacity[name] < allocatable[name] the
published value is negative — there is no clamping to zero. -/
theorem c2_amended_overhead_unclamped :
    ∀ (node : Node) (n : String),
      keysOf (getSystemOverhead node) = keysOf node.allocatable ∧
      mapGet? (getSystemOverhead node) n =
        (mapGet? node.allocatable n).map
          (fun v => (mapGet? node.capacity n).getD 0 - v) := by
  intro node n
  unfold getSystemOverhead
  by_cases h : node.allocatable.length > 0
  · rw [if_pos h]
    exact ⟨keysOf_mapValues node.allocatable
        (fun a v => (mapGet? node.capacity a).getD 0 - v),
      mapGet?_mapValues node.allocatable
        (fun a v => (mapGet? node.capacity a).getD 0 - v) n⟩
  · rw [if_neg h]
    have hnil : node.allocatable = [] := by
      cases hc : node.allocatable with
      | nil => rfl
      | cons a l =>
        rw [hc] at h
        simp at h
    rw [hnil]
    exact ⟨rfl, rfl⟩

/-! ### C7 -/

/-- C7: every label tuple produced by the node projector carries exactly the
eight node-gauge label names, and every tuple produced by the pod projector
carries exactly the eleven pod-gauge label names, for every input; a
missing provisioner node label resolves to the sentinel "N/A" and a missing
zone label to the sentinel "", never omitting the label; and resource names
are normalized by lower-casing and replacing '-' with '_'
(`normalizeResourceName`, used for the resource_type label on every
published entry). -/
theorem c7_label_schema :
    (∀ (node : Node) (rt : String),
      (generateLabels node rt).map Prod.fst =
        ["resource_type", "node_name", "provisioner", "zone", "arch",
         "capacity_type", "instance_type", "phase"]) ∧
    (∀ (pod : PodObject) (nf : Fetch Node),
      (podGenerateLabels pod nf).map Prod.fst =
        ["name", "namespace", "owner", "node", "provisioner", "zone", "arch",
         "capacity_type", "instance_type", "phase", "pod_labels"]) ∧
    (∀ (node : Node) (rt : String),
      mapGet? node.labels provisionerNameLabelKey = none →
        mapGet? (generateLabels node rt) "provisioner" = some "N/A") ∧
    (∀ (node : Node) (rt : String),
      mapGet? node.labels labelTopologyZone = none →
        mapGet? (generateLabels node rt) "zone" = some "") ∧
    (∀ (node : Node) (rt : String),
      mapGet? (generateLabels node rt) "resource_type" = some rt) ∧
    normalizeResourceName "Nvidia-GPU" = "nvidia_gpu" ∧
    normalizeResourceName "memory" = "memory" := by
  refine ⟨fun node rt => rfl, fun pod nf => ?_, fun node rt h => ?_,
    fun node rt h => ?_, fun node rt => ?_, by decide, by decide⟩
  · cases nf <;> rfl
  · simp [generateLabels, mapGet?, h]
  · simp [generateLabels, mapGet?, h]
  · simp [generateLabels, mapGet?]

/-- C7 witness: on a node with an empty label map, the provisioner and zone
sentinels are actually produced. -/
theorem c7_label_schema_witness :
    mapGet? (Node.mk "n" [] [] [] "Running").labels provisionerNameLabelKey =
      none ∧
    mapGet? (generateLabels (Node.mk "n" [] [] [] "Running") "cpu")
      "provisioner" = some "N/A" ∧
    mapGet? (generateLabels (Node.mk "n" [] [] [] "Running") "cpu")
      "zone" = some "" :=
  ⟨rfl, c7_label_schema.2.2.1 (Node.mk "n" [] [] [] "Running") "cpu" rfl,
    c7_label_schema.2.2.2.1 (Node.mk "n" [] [] [] "Running") "cpu" rfl⟩

/-! ### C8 -/

/-- C8: when the pod reconciler finds the pod but the assigned node cannot
be fetched, reconciliation succeeds: the host-derived labels zone, arch,
capacity_type and instance_type are filled with the empty sentinel, the
provisioner label falls back to the pod's node-selector hint (empty when
absent), the single state gauge is set to 1 under the generated tuple, and
the tuple is recorded in the tracking map. -/
theorem c8_pod_reconcile_node_not_found :
    ∀ (st : PodMetricsState) (key : String × String) (pod : PodObject),
      (podReconcile st key (.found pod) .notFound).2 = .ok ∧
      mapGet? (podReconcile st key (.found pod) .notFound).1.podGauge
        (podGenerateLabels pod .notFound) = some 1 ∧
      mapGet? (podReconcile st key (.found pod) .notFound).1.labelsMap key =
        some (podGenerateLabels pod .notFound) ∧
      mapGet? (podGenerateLabels pod .notFound) "zone" = some "" ∧
      mapGet? (podGenerateLabels pod .notFound) "arch" = some "" ∧
      mapGet? (podGenerateLabels pod .notFound) "capacity_type" = some "" ∧
      mapGet? (podGenerateLabels pod .notFound) "instance_type" = some "" ∧
      mapGet? (podGenerateLabels pod .notFound) "provisioner" =
        some ((mapGet? pod.nodeSelector provisionerNameLabelKey).getD "") := by
  intro st key pod
  refine ⟨rfl, ?_, ?_, ?_, ?_, ?_, ?_, ?_⟩
  · show mapGet?
      (gaugeUpsert _ (podGenerateLabels pod .notFound) 1)
      (podGenerateLabels pod .notFound) = some 1
    rw [gaugeUpsert, mapGet?_setKey, if_pos rfl]
  · show mapGet?
      (setKey _ key (podGenerateLabels pod .notFound)) key =
      some (podGenerateLabels pod .notFound)
    rw [mapGet?_setKey, if_pos rfl]
  · simp [podGenerateLabels, mapGet?]
  · simp [podGenerateLabels, mapGet?]
  · simp [podGenerateLabels, mapGet?]
  · simp [podGenerateLabels, mapGet?]
  · simp [podGenerateLabels, mapGet?]

/-! ### C5 -/

/-- C5: if every series whose node_name label equals N that is present in
any of the six node gauge families is recorded in N's tracked tuple set,
then reconciling N after its deletion (fetch returns NotFound) succeeds,
deletes every tracked tuple from all six families, clears N's tracking
entry, and leaves no series whose node_name equals N in any family. -/
theorem c5_deleted_node_no_leakage (st : NodeMetricsState) (N : String)
    (fp : Fetch (List Pod))
    (h : ∀ g ∈ [st.allocatableGauge, st.podRequestsGauge, st.podLimitsGauge,
        st.daemonRequestsGauge, st.daemonLimitsGauge, st.overheadGauge],
      ∀ e ∈ g, mapGet? e.1 "node_name" = some N →
        e.1 ∈ (mapGet? st.labelSliceMap N).getD []) :
    (nodeReconcile st N .notFound fp).2 = .ok ∧
    mapGet? (nodeReconcile st N .notFound fp).1.labelSliceMap N = some [] ∧
    ∀ g ∈ [(nodeReconcile st N .notFound fp).1.allocatableGauge,
        (nodeReconcile st N .notFound fp).1.podRequestsGauge,
        (nodeReconcile st N .notFound fp).1.podLimitsGauge,
        (nodeReconcile st N .notFound fp).1.daemonRequestsGauge,
        (nodeReconcile st N .notFound fp).1.daemonLimitsGauge,
        (nodeReconcile st N .notFound fp).1.overheadGauge],
      ∀ e ∈ g, mapGet? e.1 "node_name" ≠ some N := by
  have hres : (nodeReconcile st N .notFound fp).1 = deleteGauges st N := rfl
  refine ⟨rfl, ?_, ?_⟩
  · have h2 : (nodeReconcile st N .notFound fp).1.labelSliceMap =
        setKey st.labelSliceMap N [] := rfl
    rw [h2, mapGet?_setKey, if_pos rfl]
  · intro g hg e he hname
    have key : ∀ fam : Gauge,
        (∀ x ∈ fam, mapGet? x.1 "node_name" = some N →
          x.1 ∈ (mapGet? st.labelSliceMap N).getD []) →
        e ∈ gaugeDeleteAll fam ((mapGet? st.labelSliceMap N).getD []) →
        False := by
      intro fam hf hef
      obtain ⟨hin, hout⟩ := mem_gaugeDeleteAll.mp hef
      exact hout (hf e hin hname)
    rw [hres] at hg
    simp only [deleteGauges, List.mem_cons, List.not_mem_nil, or_false] at hg
    rcases hg with rfl | rfl | rfl | rfl | rfl | rfl
    · exact key st.allocatableGauge (h st.allocatableGauge (by simp)) he
    · exact key st.podRequestsGauge (h st.podRequestsGauge (by simp)) he
    · exact key st.podLimitsGauge (h st.podLimitsGauge (by simp)) he
    · exact key st.daemonRequestsGauge (h st.daemonRequestsGauge (by simp)) he
    · exact key st.daemonLimitsGauge (h st.daemonLimitsGauge (by simp)) he
    · exact key st.overheadGauge (h st.overheadGauge (by simp)) he

/-- C5 witness: on a state tracking one published tuple for node n1, the
tracking hypothesis holds and deletion-reconciliation clears everything. -/
theorem c5_deleted_node_no_leakage_witness :
    (∀ g ∈ [c1State.allocatableGauge, c1State.podRequestsGauge,
        c1State.podLimitsGauge, c1State.daemonRequestsGauge,
        c1State.daemonLimitsGauge, c1State.overheadGauge],
      ∀ e ∈ g, mapGet? e.1 "node_name" = some "n1" →
        e.1 ∈ (mapGet? c1State.labelSliceMap "n1").getD []) ∧
    ((nodeReconcile c1State "n1" .notFound .notFound).2 = .ok ∧
     mapGet? (nodeReconcile c1State "n1" .notFound .notFound).1.labelSliceMap
       "n1" = some [] ∧
     ∀ g ∈ [(nodeReconcile c1State "n1" .notFound .notFound).1.allocatableGauge,
         (nodeReconcile c1State "n1" .notFound .notFound).1.podRequestsGauge,
         (nodeReconcile c1State "n1" .notFound .notFound).1.podLimitsGauge,
         (nodeReconcile c1State "n1" .notFound .notFound).1.daemonRequestsGauge,
         (nodeReconcile c1State "n1" .notFound .notFound).1.daemonLimitsGauge,
         (nodeReconcile c1State "n1" .notFound .notFound).1.overheadGauge],
       ∀ e ∈ g, mapGet? e.1 "node_name" ≠ some "n1") :=
  ⟨by decide, c5_deleted_node_no_leakage c1State "n1" .notFound (by decide)⟩

/-! ### C6 -/

/-- Node n1: capacity cpu=4 cores, allocatable cpu=3.8 cores. -/
def c6Node : Node :=
  { name := "n1", labels := [], capacity := [("cpu", 4000)],
    allocatable := [("cpu", 3800)], phase := "Running" }

/-- A running regular pod requesting cpu=1 with limit cpu=2. -/
def c6RegularPod : Pod :=
  { phase := "Running", ownedByDaemonSet := false,
    containers := [{ requests := [("cpu", 1000)], limits := [("cpu", 2000)] }],
    overhead := none }

/-- A running daemon-set-owned pod requesting cpu=0.2 with no limit. -/
def c6DaemonPod : Pod :=
  { phase := "Running", ownedByDaemonSet := true,
    containers := [{ requests := [("cpu", 200)], limits := [] }],
    overhead := none }

/-- C6: reconciling node n1 (capacity cpu=4, allocatable cpu=3.8) with one
regular pod (request cpu=1, limit cpu=2) and one daemon pod (request
cpu=0.2) publishes exactly overhead cpu=0.2, pod requests cpu=1, pod
limits cpu=2, daemon requests cpu=0.2 and allocatable cpu=3.8 — all as
fractional cores from milli-unit precision — and publishes no series at
all in the daemon limits family. -/
theorem c6_scenario :
    (nodeReconcile emptyNodeState "n1" (.found c6Node)
      (.found [c6RegularPod, c6DaemonPod])).2 = .ok ∧
    (nodeReconcile emptyNodeState "n1" (.found c6Node)
      (.found [c6RegularPod, c6DaemonPod])).1.overheadGauge =
      [(generateLabels c6Node "cpu", 1/5)] ∧
    (nodeReconcile emptyNodeState "n1" (.found c6Node)
      (.found [c6RegularPod, c6DaemonPod])).1.podRequestsGauge =
      [(generateLabels c6Node "cpu", 1)] ∧
    (nodeReconcile emptyNodeState "n1" (.found c6Node)
      (.found [c6RegularPod, c6DaemonPod])).1.podLimitsGauge =
      [(generateLabels c6Node "cpu", 2)] ∧
    (nodeReconcile emptyNodeState "n1" (.found c6Node)
      (.found [c6RegularPod, c6DaemonPod])).1.daemonRequestsGauge =
      [(generateLabels c6Node "cpu", 1/5)] ∧
    (nodeReconcile emptyNodeState "n1" (.found c6Node)
      (.found [c6RegularPod, c6DaemonPod])).1.daemonLimitsGauge = [] ∧
    (nodeReconcile emptyNodeState "n1" (.found c6Node)
      (.found [c6RegularPod, c6DaemonPod])).1.allocatableGauge =
      [(generateLabels c6Node "cpu", 19/5)] := by
  have hn : normalizeResourceName "cpu" = "cpu" := by decide
  refine ⟨rfl, ?_, ?_, ?_, ?_, ?_, ?_⟩ <;>
    simp [nodeReconcile, updateGauges, deleteGauges, insertGaugeValues,
      insertGaugeStep, getPodsTotalRequestsAndLimits, processPod,
      processPodContainers, addResourceQuantity, addQuantityStep,
      addOverheadToLimits, getSystemOverhead, mapGet?, setKey, gaugeUpsert,
      gaugeDelete, gaugeDeleteAll, publishValue, hn, isTerminal,
      c6Node, c6RegularPod, c6DaemonPod, emptyNodeState] <;>
    norm_num

/-! ### C3 -/

/-- A running pod with declared overhead cpu=1 and no containers. -/
def c3OverheadPod : Pod :=
  { phase := "Running", ownedByDaemonSet := false, containers := [],
    overhead := some [("cpu", 1000)] }

/-- A running pod with one container whose limit is cpu=2. -/
def c3LimitPod : Pod :=
  { phase := "Running", ownedByDaemonSet := false,
    containers := [{ requests := [], limits := [("cpu", 2000)] }],
    overhead := none }

/-- C3 counterexample: the two pod lists are permutations of each other,
yet the aggregator returns different limits mappings — when the overhead
pod is processed first, no cpu limit exists yet, so its overhead is not
added to the limits; processed second, it is. The result is not
independent of iteration order. -/
theorem c3_counterexample :
    [c3OverheadPod, c3LimitPod].Perm [c3LimitPod, c3OverheadPod] ∧
    getPodsTotalRequestsAndLimits [c3OverheadPod, c3LimitPod] ≠
      getPodsTotalRequestsAndLimits [c3LimitPod, c3OverheadPod] ∧
    (getPodsTotalRequestsAndLimits [c3OverheadPod, c3LimitPod]).2 =
      [("cpu", 2000)] ∧
    (getPodsTotalRequestsAndLimits [c3LimitPod, c3OverheadPod]).2 =
      [("cpu", 3000)] := by
  decide

/-- C3 amended: the requests mapping returned by
`getPodsTotalRequestsAndLimits` is independent of the iteration order —
for any permutation of the pod list it carries the same total at every
resource name, treating an absent name as zero; the limits mapping,
however, can depend on the order (see the counterexample), because pod
overhead is added to a limit only when a non-zero limit entry already
exists at the moment that pod is processed. -/
theorem c3_amended_requests_order_independent :
    ∀ (l1 l2 : List Pod), l1.Perm l2 →
      ∀ n : String,
        sumVal (getPodsTotalRequestsAndLimits l1).1 n =
          sumVal (getPodsTotalRequestsAndLimits l2).1 n := by
  intro l1 l2 hperm n
  rw [getPodsTotalRequestsAndLimits_fst_sumVal,
    getPodsTotalRequestsAndLimits_fst_sumVal]
  exact (hperm.map (fun p => podRequestsContribution p n)).sum_eq

/-- C3 witness: the permutation hypothesis discharged on the two concrete
pod lists of the counterexample. -/
theorem c3_amended_requests_order_independent_witness :
    [c3OverheadPod, c3LimitPod].Perm [c3LimitPod, c3OverheadPod] ∧
    ∀ n : String,
      sumVal (getPodsTotalRequestsAndLimits [c3OverheadPod, c3LimitPod]).1 n =
        sumVal (getPodsTotalRequestsAndLimits [c3LimitPod, c3OverheadPod]).1 n :=
  ⟨by decide,
    c3_amended_requests_order_independent _ _ (by decide)⟩

/-! ### C4 -/

/-- C4: in the per-pod aggregation step, a terminal pod contributes nothing
to requests or limits; for a non-terminal pod with declared overhead, the
overhead is added unconditionally to the requests sum, while the limits
sum gains the overhead only at resource names whose limit entry (after
summing the pod's containers) is strictly positive — overhead alone never
introduces a new limit entry and never adds to a zero-valued limit.
Quantities are assumed non-negative, as Kubernetes resource requirements
are, so the source's non-zero test coincides with strict positivity. -/
theorem c4_overhead_and_terminal (acc : ResourceList × ResourceList)
    (pod : Pod) (ov : ResourceList)
    (hnd1 : (keysOf acc.1).Nodup) (hnd2 : (keysOf acc.2).Nodup)
    (hacc : ∀ q ∈ acc.2, 0 ≤ q.2)
    (hcl : ∀ c ∈ pod.containers, ∀ q ∈ c.limits, 0 ≤ q.2)
    (hov : ∀ q ∈ ov, 0 ≤ q.2) :
    (isTerminal pod = true → processPod acc pod = acc) ∧
    (isTerminal pod = false → pod.overhead = some ov →
      (∀ n : String,
        sumVal (processPod acc pod).1 n =
          sumVal (processPodContainers acc pod.containers).1 n + sumVal ov n) ∧
      keysOf (processPod acc pod).2 =
        keysOf (processPodContainers acc pod.containers).2 ∧
      (∀ (n : String) (v : Int),
        mapGet? (processPodContainers acc pod.containers).2 n = some v →
          mapGet? (processPod acc pod).2 n =
            some (if 0 < v then v + sumVal ov n else v)) ∧
      (∀ n : String,
        mapGet? (processPodContainers acc pod.containers).2 n = none →
          mapGet? (processPod acc pod).2 n = none)) := by
  constructor
  · intro ht
    simp [processPod, ht]
  · intro ht ho
    have hL2nd : (keysOf (processPodContainers acc pod.containers).2).Nodup :=
      processPodContainers_snd_nodup _ hnd2
    have hLpos : ∀ q ∈ (processPodContainers acc pod.containers).2, 0 ≤ q.2 :=
      processPodContainers_snd_nonneg _ hacc hcl
    have hstep : processPod acc pod =
        (addResourceQuantity ov (processPodContainers acc pod.containers).1,
         addOverheadToLimits ov (processPodContainers acc pod.containers).2) := by
      simp [processPod, ht, ho]
    refine ⟨?_, ?_, ?_, ?_⟩
    · intro n
      rw [hstep]
      exact addResourceQuantity_sumVal ov
        (processPodContainers_fst_nodup _ hnd1) n
    · rw [hstep]
      exact addOverheadToLimits_keysOf ov _
    · intro n v hv
      rw [hstep]
      dsimp only
      rw [addOverheadToLimits_mapGet? hL2nd hLpos hov n, hv]
      have hv0 : 0 ≤ v := hLpos _ (mapGet?_eq_some_mem hv)
      by_cases hz : v = 0
      · subst hz
        simp
      · have hpos : 0 < v := lt_of_le_of_ne hv0 (Ne.symm hz)
        simp [hz, hpos]
    · intro n hv
      rw [hstep]
      dsimp only
      rw [addOverheadToLimits_mapGet? hL2nd hLpos hov n, hv]
      rfl

/-- Accumulator with a strictly positive cpu limit and a zero memory limit. -/
def c4Acc : ResourceList × ResourceList :=
  ([("cpu", 100)], [("cpu", 500), ("memory", 0)])

/-- A running pod with container limits on cpu and overhead on cpu and
memory. -/
def c4Pod : Pod :=
  { phase := "Running", ownedByDaemonSet := false,
    containers := [{ requests := [("cpu", 50)], limits := [("cpu", 300)] }],
    overhead := some [("cpu", 10), ("memory", 20)] }

/-- C4 witness: the non-negativity and key-uniqueness hypotheses discharged
on a concrete accumulator and pod. -/
theorem c4_overhead_and_terminal_witness :
    ((keysOf c4Acc.1).Nodup ∧ (keysOf c4Acc.2).Nodup ∧
      (∀ q ∈ c4Acc.2, 0 ≤ q.2) ∧
      (∀ c ∈ c4Pod.containers, ∀ q ∈ c.limits, 0 ≤ q.2) ∧
      (∀ q ∈ ([("cpu", 10), ("memory", 20)] : ResourceList), 0 ≤ q.2)) ∧
    ((isTerminal c4Pod = true → processPod c4Acc c4Pod = c4Acc) ∧
     (isTerminal c4Pod = false →
      c4Pod.overhead = some [("cpu", 10), ("memory", 20)] →
      (∀ n : String,
        sumVal (processPod c4Acc c4Pod).1 n =
          sumVal (processPodContainers c4Acc c4Pod.containers).1 n +
            sumVal [("cpu", 10), ("memory", 20)] n) ∧
      keysOf (processPod c4Acc c4Pod).2 =
        keysOf (processPodContainers c4Acc c4Pod.containers).2 ∧
      (∀ (n : String) (v : Int),
        mapGet? (processPodContainers c4Acc c4Pod.containers).2 n = some v →
          mapGet? (processPod c4Acc c4Pod).2 n =
            some (if 0 < v then v + sumVal [("cpu", 10), ("memory", 20)] n
              else v)) ∧
      (∀ n : String,
        mapGet? (processPodContainers c4Acc c4Pod.containers).2 n = none →
          mapGet? (processPod c4Acc c4Pod).2 n = none))) :=
  ⟨⟨by decide, by decide, by decide, by decide, by decide⟩,
    c4_overhead_and_terminal c4Acc c4Pod [("cpu", 10), ("memory", 20)]
      (by decide) (by decide) (by decide) (by decide) (by decide)⟩

/-! ### C10 -/

/-- C10: when a reconciled node reports no allocatable resources at all,
the series published under the allocatable gauge family carry the node's
capacity values; when any allocatable entry is present, they carry the
allocatable values unchanged. Normalized resource names are assumed
distinct so each entry keys its own series. -/
theorem c10_allocatable_fallback (st : NodeMetricsState) (name : String)
    (node : Node) (pods : List Pod)
    (hcap : (node.capacity.map (fun p => normalizeResourceName p.1)).Nodup)
    (halloc : (node.allocatable.map (fun p => normalizeResourceName p.1)).Nodup) :
    (node.allocatable = [] →
      ∀ p ∈ node.capacity,
        mapGet?
          (nodeReconcile st name (.found node) (.found pods)).1.allocatableGauge
          (generateLabels node (normalizeResourceName p.1)) =
          some (publishValue p.1 p.2)) ∧
    (node.allocatable ≠ [] →
      ∀ p ∈ node.allocatable,
        mapGet?
          (nodeReconcile st name (.found node) (.found pods)).1.allocatableGauge
          (generateLabels node (normalizeResourceName p.1)) =
          some (publishValue p.1 p.2)) := by
  constructor
  · intro hnil p hp
    have hcond : ¬(node.allocatable.length > 0) := by
      rw [hnil]
      simp
    simp only [nodeReconcile, updateGauges, if_neg hcond]
    exact insertGaugeValues_gauge_mapGet? hcap _ _ p hp
  · intro hne p hp
    have hcond : node.allocatable.length > 0 := List.length_pos.mpr hne
    simp only [nodeReconcile, updateGauges, if_pos hcond]
    exact insertGaugeValues_gauge_mapGet? halloc _ _ p hp

/-- A node that reports capacity but no allocatable at all. -/
def c10Node : Node :=
  { name := "n3", labels := [], capacity := [("cpu", 2000)],
    allocatable := [], phase := "Ready" }

/-- C10 witness: hypotheses discharged on a concrete node with empty
allocatable, reconciled from a fresh state. -/
theorem c10_allocatable_fallback_witness :
    (c10Node.capacity.map (fun p => normalizeResourceName p.1)).Nodup ∧
    (c10Node.allocatable.map (fun p => normalizeResourceName p.1)).Nodup ∧
    ((c10Node.allocatable = [] →
      ∀ p ∈ c10Node.capacity,
        mapGet?
          (nodeReconcile emptyNodeState "n3" (.found c10Node)
            (.found [])).1.allocatableGauge
          (generateLabels c10Node (normalizeResourceName p.1)) =
          some (publishValue p.1 p.2)) ∧
     (c10Node.allocatable ≠ [] →
      ∀ p ∈ c10Node.allocatable,
        mapGet?
          (nodeReconcile emptyNodeState "n3" (.found c10Node)
            (.found [])).1.allocatableGauge
          (generateLabels c10Node (normalizeResourceName p.1)) =
          some (publishValue p.1 p.2))) :=
  ⟨by decide, by decide,
    c10_allocatable_fallback emptyNodeState "n3" c10Node []
      (by decide) (by decide)⟩

end Karpenter
